import Mathlib

/-!
# Stock price aggregator: window controller and single-ticker chart

A shallow embedding of two React components of the repository,

* `src/components/StockSearch.js` : `handleTimeChange`, the validation of the
  requested time window, and
* `src/components/StockChart.js` : the effect that normalises the fetched
  samples, averages them and formats them for the chart, and the render path,

together with the properties the specification states about them.

Numbers.  JavaScript numbers are IEEE doubles.  The window controller only
compares the parsed integer with 5 and 60; rounding to a double is monotone and
exact on every integer of magnitude below `2^53`, so the comparison has the same
outcome on the mathematical integer, and every value that passes it is exact.
`parseInt` is therefore embedded with values in `Int`, `none` standing for
`NaN`.  Prices are embedded as exact rationals, `none` standing for `NaN`
(floating-point rounding of the mean is not modelled).
-/

namespace StockAggregator

/-! ## Window controller (`StockSearch.js`) -/

/-- White space and line terminators that `parseInt` skips at the start of its
input (ECMAScript `StrWhiteSpaceChar`). -/
def isStrWhiteSpaceChar (c : Char) : Bool :=
  let n := c.toNat
  n == 0x9 || n == 0xA || n == 0xB || n == 0xC || n == 0xD || n == 0x20 ||
  n == 0xA0 || n == 0x1680 || (0x2000 ≤ n && n ≤ 0x200A) || n == 0x2028 ||
  n == 0x2029 || n == 0x202F || n == 0x205F || n == 0x3000 || n == 0xFEFF

/-- A digit of radix 10. -/
def isRadixDigit (c : Char) : Bool :=
  48 ≤ c.toNat && c.toNat ≤ 57

/-- The mathematical integer denoted by a run of radix-10 digits. -/
def mathInt (z : List Char) : Nat :=
  z.foldl (fun acc c => acc * 10 + (c.toNat - 48)) 0

/-- The optional sign at the start of the trimmed input: the sign as a factor
and the text after it. -/
def splitSign : List Char → Int × List Char
  | '-' :: rest => (-1, rest)
  | '+' :: rest => (1, rest)
  | s => (1, s)

/-- The steps of `parseInt(string, 10)` on the characters of the input: skip
leading white space, read an optional sign, then the longest run of decimal
digits; anything after the run is ignored.  `none` is `NaN` (no digit where one
is expected). -/
def parseIntChars (input : List Char) : Option Int :=
  let s := input.dropWhile isStrWhiteSpaceChar
  let signed := splitSign s
  let z := signed.2.takeWhile isRadixDigit
  if z.isEmpty then none else some (signed.1 * (mathInt z : Int))

/-- The built-in `parseInt(string, 10)` on a string. -/
def parseInt (inputString : String) : Option Int :=
  parseIntChars inputString.toList

/-- The change handler of the `Minutes` field,
`handleTimeChange(event)` with `value = event.target.value`.
The result is the list of calls it makes to the `onTimeFrameChange` callback,
in order, each call given by its argument. -/
def handleTimeChange (value : String) : List Int :=
  match parseInt value with
  | none => []
  | some v => if v ≥ 5 ∧ v ≤ 60 then [v] else []

/-- Modelled from the spec: the owner of the active window (the page that passes
`onTimeFrameChange` and `timeFrame` to `StockSearch`) is not among the sources.
Spec 4.5: on success the active TimeWindow is updated to the accepted value; on
failure it is left unchanged.  Each call of `onTimeFrameChange` replaces the
active window by its argument. -/
def applyCalls (window : Int) (calls : List Int) : Int :=
  calls.foldl (fun _ v => v) window

/-- The active window after one change event with the given input text. -/
def setWindow (window : Int) (value : String) : Int :=
  applyCalls window (handleTimeChange value)

/-- The active window after a sequence of change events. -/
def setWindows (window : Int) (values : List String) : Int :=
  values.foldl setWindow window


/-- A run of decimal digits that denotes `n`. -/
def IsDigitsOf (ds : List Char) (n : Nat) : Prop :=
  ds ≠ [] ∧ (∀ c ∈ ds, isRadixDigit c = true) ∧ mathInt ds = n

/-- The text does not begin with a decimal digit (it is empty or begins with
another character). -/
def noLeadingDigit (t : List Char) : Bool :=
  match t with
  | [] => true
  | c :: _ => !isRadixDigit c

/-- The text has no leading integer numeral: leading white space is passed
over; then a sign must not be followed by a decimal digit, and any other first
character must not be a decimal digit; the empty text has none.  Examples are
the empty text, `abc`, `.5` and a lone `-`. -/
def noLeadingNumeral : List Char → Bool
  | [] => true
  | c :: t =>
    if isStrWhiteSpaceChar c then noLeadingNumeral t
    else if c = '-' ∨ c = '+' then noLeadingDigit t
    else !isRadixDigit c

/-! ## Single-ticker chart (`StockChart.js`) -/

/-- A JavaScript number as far as the chart needs it: an exact rational, or
`none` for `NaN`. -/
abbrev Number := Option ℚ

/-- One record of the fetched data, `{ price, lastUpdatedAt }`.
`price` is `none` when the field is missing.  `lastUpdatedAt` is the time value
of `new Date(item.lastUpdatedAt)` in epoch milliseconds, `none` when the field
is missing or does not parse (an invalid date, whose time value is `NaN`). -/
structure Sample where
  price : Option ℚ
  lastUpdatedAt : Option Int
  deriving DecidableEq

/-- The `stockData` prop, by the shapes the component tells apart: a falsy value
(`null`, `undefined`), an array of records, or another object, whose `stock`
field is a record or is not set. -/
inductive StockData where
  | falsy
  | array (items : List Sample)
  | object (stock : Option Sample)
  deriving DecidableEq

/-- The object `formatChartData` returns, without its constant styling: the
labels (each the date whose local time string is shown), the data of the
`Stock Price` dataset and the data of the `Average Price` dataset. -/
structure ChartData where
  labels : List (Option Int)
  prices : List (Option ℚ)
  averageLine : List Number
  deriving DecidableEq

/-- The component state: `chartData` (initially `null`) and `avgPrice`
(initially `0`). -/
structure ChartState where
  chartData : Option ChartData
  avgPrice : Number
  deriving DecidableEq

/-- The state of a freshly mounted component, `useState(null)` and
`useState(0)`. -/
def initialState : ChartState := { chartData := none, avgPrice := some 0 }

/-- The comparator given to `sort`,
`(a, b) => new Date(a.lastUpdatedAt) - new Date(b.lastUpdatedAt)`;
`none` is `NaN`, the difference when either date is invalid.  Only the sign of
the difference is used, and the sign of the difference of two time values is
exact. -/
def compareFn (a b : Sample) : Option Int :=
  match a.lastUpdatedAt, b.lastUpdatedAt with
  | some x, some y => some (x - y)
  | _, _ => none

/-- How the built-in `sort` reads a comparator result: `NaN` counts as `0`. -/
def sortCompare {α : Type} (comparefn : α → α → Option Int) (x y : α) : Int :=
  (comparefn x y).getD 0

/-- Insert `a` in front of the first element it does not come after. -/
def insertSorted {α : Type} (comparefn : α → α → Option Int) (a : α) : List α → List α
  | [] => [a]
  | b :: l =>
    if sortCompare comparefn a b ≤ 0 then a :: b :: l
    else b :: insertSorted comparefn a l

/-- The built-in `Array.prototype.sort(comparefn)` on a copy of the array, as a
stable insertion sort.  The language requires `sort` to be stable, so for a
consistent comparator every engine returns this same sequence. -/
def sort {α : Type} (comparefn : α → α → Option Int) : List α → List α
  | [] => []
  | a :: l => insertSorted comparefn a (sort comparefn l)

/-- Sample `a` is not after sample `b`: both timestamps are valid and the first
is at most the second. -/
def NotAfter (a b : Sample) : Prop :=
  ∃ x y, a.lastUpdatedAt = some x ∧ b.lastUpdatedAt = some y ∧ x ≤ y

/-- The sorted copy `sortedData` inside `formatChartData`. -/
def sortedData (data : List Sample) : List Sample :=
  sort compareFn data

/-- The function `formatChartData(data, average)`. -/
def formatChartData (data : List Sample) (average : Number) : ChartData :=
  let sorted := sortedData data
  let labels := sorted.map (fun item => item.lastUpdatedAt)
  let prices := sorted.map (fun item => item.price)
  let averageLine := List.replicate labels.length average
  { labels := labels, prices := prices, averageLine := averageLine }

/-- The sample normalisation at the start of the effect: `dataArray` for a
truthy `stockData`.  It is `none` for a falsy `stockData`, where the effect
returns before `dataArray` exists. -/
def normalize (stockData : StockData) : Option (List Sample) :=
  match stockData with
  | .falsy => none
  | .array items => some items
  | .object (some stock) => some [stock]
  | .object none => some []

/-- The effect of `StockChart`, run on `stockData` from the component state
`st`; the result is the state after the effect.  `calculateAverage` is imported
from `../api`, which is not among the sources, and is a parameter here. -/
def useEffect (calculateAverage : List Sample → Number) (stockData : StockData)
    (st : ChartState) : ChartState :=
  match normalize stockData with
  | none => st
  | some dataArray =>
    if dataArray.length = 0 then st
    else
      let average := calculateAverage dataArray
      let formattedData := formatChartData dataArray average
      { avgPrice := average, chartData := some formattedData }

/-- One step of the summation, `acc + item.price`; adding a missing price, or
adding to `NaN`, gives `NaN`. -/
def addPrice (acc : Number) (item : Sample) : Number :=
  match acc, item.price with
  | some a, some p => some (a + p)
  | _, _ => none

/-- The sum of the `price` fields by repeated addition from `0`. -/
def sumPrices (data : List Sample) : Number :=
  data.foldl addPrice (some 0)

/-- Modelled from the spec: `calculateAverage` of `src/api`, which is not among
the sources.  Spec 4.2: the arithmetic mean of all `price` fields, plain
summation divided by count; given an empty sequence, returns `0`. -/
def calculateAverage (data : List Sample) : Number :=
  if data.length = 0 then some 0
  else (sumPrices data).map (fun total => total / (data.length : ℚ))

/-- A record is well formed when it has both its price and a valid timestamp. -/
def wellFormed (r : Sample) : Bool :=
  r.price.isSome && r.lastUpdatedAt.isSome

/-- What the component renders: the prompt to select a stock; the current price
of a single data point (shown as `price.toFixed(2)`) with its date; the notice
that no data is available; the progress spinner; or the line chart under the
average price (shown as `avgPrice.toFixed(2)`). -/
inductive View where
  | selectPrompt
  | currentPrice (price : ℚ) (lastUpdated : Option Int)
  | noData
  | loading
  | chart (avgPrice : Number) (chartData : ChartData)
  deriving DecidableEq

/-- The render path of `StockChart` on `stockData` in component state `st`.
`Except.error` is a thrown exception: `stockData.stock.price.toFixed(2)` throws
a `TypeError` when `price` is `undefined`. -/
def StockChart (stockData : StockData) (st : ChartState) : Except String View :=
  match stockData with
  | .falsy => .ok .selectPrompt
  | .object (some stock) =>
    match stock.price with
    | none => .error "TypeError: Cannot read properties of undefined (reading toFixed)"
    | some price => .ok (.currentPrice price stock.lastUpdatedAt)
  | .array [] => .ok .noData
  | _ =>
    match st.chartData with
    | none => .ok .loading
    | some chartData => .ok (.chart st.avgPrice chartData)

/-! ## Decimal numerals -/

theorem digitChar_spec (k : Nat) (hk : k < 10) :
    isRadixDigit (Nat.digitChar k) = true ∧ (Nat.digitChar k).toNat - 48 = k := by
  interval_cases k <;> decide

theorem mathInt_append_singleton (ds : List Char) (c : Char) :
    mathInt (ds ++ [c]) = mathInt ds * 10 + (c.toNat - 48) := by
  simp [mathInt, List.foldl_append]

theorem toDigitsCore_spec (fuel : Nat) : ∀ (n : Nat) (acc : List Char), n < fuel →
    ∃ pre, Nat.toDigitsCore 10 fuel n acc = pre ++ acc ∧ IsDigitsOf pre n := by
  induction fuel with
  | zero => intro n acc h; omega
  | succ fuel ih =>
    intro n acc h
    have hd := digitChar_spec (n % 10) (Nat.mod_lt _ (by decide))
    unfold Nat.toDigitsCore
    by_cases h0 : n / 10 = 0
    · refine ⟨[Nat.digitChar (n % 10)], by simp [h0], by simp, by simpa using hd.1, ?_⟩
      have hn : n % 10 = n := by omega
      have h2 := hd.2
      simp only [mathInt, List.foldl_cons, List.foldl_nil, h2]
      omega
    · obtain ⟨pre, hpre, hne, hdig, hval⟩ := ih (n / 10) (Nat.digitChar (n % 10) :: acc) (by omega)
      refine ⟨pre ++ [Nat.digitChar (n % 10)], by simp [h0, hpre], by simp, ?_, ?_⟩
      · intro c hc
        rcases List.mem_append.1 hc with hc | hc
        · exact hdig c hc
        · rw [List.mem_singleton.1 hc]; exact hd.1
      · rw [mathInt_append_singleton, hval, hd.2]; omega

theorem toDigits_spec (n : Nat) : IsDigitsOf (Nat.toDigits 10 n) n := by
  obtain ⟨pre, hpre, h⟩ := toDigitsCore_spec (n + 1) n [] (Nat.lt_succ_self n)
  simpa [Nat.toDigits, hpre] using h


theorem radixDigit_not_space (c : Char) (h : isRadixDigit c = true) :
    isStrWhiteSpaceChar c = false ∧ c ≠ '-' ∧ c ≠ '+' := by
  have h1 : 48 ≤ c.toNat ∧ c.toNat ≤ 57 := by simpa [isRadixDigit] using h
  refine ⟨?_, ?_, ?_⟩
  · simp only [isStrWhiteSpaceChar, Bool.or_eq_false_iff, beq_eq_false_iff_ne, ne_eq,
      Bool.and_eq_false_imp, decide_eq_true_eq, decide_eq_false_iff_not]
    omega
  · rintro rfl; revert h1; decide
  · rintro rfl; revert h1; decide

theorem takeWhile_digits_append (ds t : List Char) (hds : ∀ c ∈ ds, isRadixDigit c = true)
    (ht : noLeadingDigit t = true) : (ds ++ t).takeWhile isRadixDigit = ds := by
  induction ds with
  | nil =>
    cases t with
    | nil => rfl
    | cons c t =>
      have hc : isRadixDigit c = false := by simpa [noLeadingDigit] using ht
      simp [List.takeWhile, hc]
  | cons d ds ih =>
    have hd := hds d (List.mem_cons_self _ _)
    rw [List.cons_append, List.takeWhile_cons, hd, if_pos rfl,
      ih (fun c hc => hds c (List.mem_cons_of_mem _ hc))]

theorem parseIntChars_digits (ds t : List Char) (m : Nat) (h : IsDigitsOf ds m)
    (ht : noLeadingDigit t = true) : parseIntChars (ds ++ t) = some (m : Int) := by
  obtain ⟨hne, hdig, hval⟩ := h
  cases ds with
  | nil => exact absurd rfl hne
  | cons d ds =>
    have hd := radixDigit_not_space d (hdig d (List.mem_cons_self _ _))
    have htw := takeWhile_digits_append (d :: ds) t hdig ht
    have hsign : splitSign (d :: (ds ++ t)) = (1, d :: (ds ++ t)) := by
      unfold splitSign
      split
      · rename_i heq; exact absurd (List.cons.inj heq).1 hd.2.1
      · rename_i heq; exact absurd (List.cons.inj heq).1 hd.2.2
      · rfl
    have hdrop : (d :: (ds ++ t)).dropWhile isStrWhiteSpaceChar = d :: (ds ++ t) := by
      rw [List.dropWhile_cons, hd.1]; rfl
    rw [List.cons_append] at htw ⊢
    unfold parseIntChars
    simp only [hdrop, hsign, htw, hval]
    simp

theorem parseIntChars_neg_digits (ds t : List Char) (m : Nat) (h : IsDigitsOf ds m)
    (ht : noLeadingDigit t = true) : parseIntChars ('-' :: (ds ++ t)) = some (-(m : Int)) := by
  obtain ⟨hne, hdig, hval⟩ := h
  have htw := takeWhile_digits_append ds t hdig ht
  have hdrop : ('-' :: (ds ++ t)).dropWhile isStrWhiteSpaceChar = '-' :: (ds ++ t) := by
    rw [List.dropWhile_cons]; rfl
  have hsign : splitSign ('-' :: (ds ++ t)) = (-1, ds ++ t) := rfl
  unfold parseIntChars
  simp only [hdrop, hsign, htw, hval]
  cases ds with
  | nil => exact absurd rfl hne
  | cons d ds => simp

theorem toString_int_toList (n : Int) :
    (toString n).toList =
      if 0 ≤ n then Nat.toDigits 10 n.toNat else '-' :: Nat.toDigits 10 n.natAbs := by
  cases n with
  | ofNat m => simp [toString, Nat.repr, List.asString]
  | negSucc m =>
    have : ¬ (0 : Int) ≤ Int.negSucc m := by simp
    simp [toString, Nat.repr, List.asString, this, Int.natAbs]

/-- Reading back a decimal numeral: `parseInt` of the numeral of `n`, followed
by any text that does not begin with a digit, is `n`. -/
theorem parseInt_numeral_append (n : Int) (rest : String) (h : noLeadingDigit rest.toList = true) :
    parseInt (toString n ++ rest) = some n := by
  have h' : noLeadingDigit rest.data = true := h
  have hl : (toString n ++ rest).toList = (toString n).toList ++ rest.data :=
    String.data_append _ _
  unfold parseInt
  rw [hl, toString_int_toList]
  by_cases hn : 0 ≤ n
  · rw [if_pos hn, parseIntChars_digits _ _ _ (toDigits_spec _) h']
    simp [Int.toNat_of_nonneg hn]
  · rw [if_neg hn, List.cons_append, parseIntChars_neg_digits _ _ _ (toDigits_spec _) h']
    congr 1
    omega

theorem parseInt_numeral (n : Int) : parseInt (toString n) = some n := by
  have h := parseInt_numeral_append n "" rfl
  simpa using h




theorem takeWhile_noLeadingDigit (t : List Char) (ht : noLeadingDigit t = true) :
    t.takeWhile isRadixDigit = [] := by
  have h := takeWhile_digits_append [] t (fun c hc => absurd hc (List.not_mem_nil c)) ht
  simpa using h

theorem parseIntChars_noLeadingNumeral (t : List Char) (ht : noLeadingNumeral t = true) :
    parseIntChars t = none := by
  induction t with
  | nil => rfl
  | cons c t ih =>
    unfold noLeadingNumeral at ht
    by_cases hws : isStrWhiteSpaceChar c = true
    · rw [if_pos hws] at ht
      have hdrop : (c :: t).dropWhile isStrWhiteSpaceChar = t.dropWhile isStrWhiteSpaceChar := by
        rw [List.dropWhile_cons, if_pos hws]
      have hstep : parseIntChars (c :: t) = parseIntChars t := by
        unfold parseIntChars
        rw [hdrop]
      rw [hstep]
      exact ih ht
    · rw [if_neg hws] at ht
      have hdrop : (c :: t).dropWhile isStrWhiteSpaceChar = c :: t := by
        rw [List.dropWhile_cons, if_neg hws]
      by_cases hsign : c = '-' ∨ c = '+'
      · rw [if_pos hsign] at ht
        have htw := takeWhile_noLeadingDigit t ht
        have hsplit : (splitSign (c :: t)).2 = t := by
          rcases hsign with rfl | rfl <;> rfl
        unfold parseIntChars
        simp only [hdrop, hsplit, htw]
        rfl
      · rw [if_neg hsign] at ht
        have hc : isRadixDigit c = false := by simpa using ht
        have hsplit : splitSign (c :: t) = (1, c :: t) := by
          unfold splitSign
          split
          · rename_i heq; exact absurd (Or.inl (List.cons.inj heq).1) hsign
          · rename_i heq; exact absurd (Or.inr (List.cons.inj heq).1) hsign
          · rfl
        have htw : (c :: t).takeWhile isRadixDigit = [] := by
          rw [List.takeWhile_cons, hc]; rfl
        unfold parseIntChars
        simp only [hdrop, hsplit, htw]
        rfl

/-- A text with no leading integer numeral parses to `NaN`. -/
theorem parseInt_noLeadingNumeral (text : String) (ht : noLeadingNumeral text.toList = true) :
    parseInt text = none :=
  parseIntChars_noLeadingNumeral text.toList ht

/-! ## Sorting -/

theorem insertSorted_perm {α : Type} (comparefn : α → α → Option Int) (a : α) (l : List α) :
    (insertSorted comparefn a l).Perm (a :: l) := by
  induction l with
  | nil => exact List.Perm.refl _
  | cons b l ih =>
    unfold insertSorted
    split
    · exact List.Perm.refl _
    · exact (List.Perm.cons b ih).trans (List.Perm.swap a b l)

theorem sort_perm {α : Type} (comparefn : α → α → Option Int) (l : List α) :
    (sort comparefn l).Perm l := by
  induction l with
  | nil => exact List.Perm.refl _
  | cons a l ih =>
    exact (insertSorted_perm comparefn a (sort comparefn l)).trans (List.Perm.cons a ih)

theorem sortCompare_of_some {a b : Sample} {x y : Int} (ha : a.lastUpdatedAt = some x)
    (hb : b.lastUpdatedAt = some y) : sortCompare compareFn a b = x - y := by
  simp [sortCompare, compareFn, ha, hb]

theorem insertSorted_sorted (a : Sample) (l : List Sample) (ha : a.lastUpdatedAt.isSome = true)
    (hl : ∀ s ∈ l, s.lastUpdatedAt.isSome = true) (hs : l.Pairwise NotAfter) :
    (insertSorted compareFn a l).Pairwise NotAfter := by
  induction l with
  | nil => simp [insertSorted]
  | cons b l ih =>
    obtain ⟨x, hx⟩ := Option.isSome_iff_exists.1 ha
    obtain ⟨y, hy⟩ := Option.isSome_iff_exists.1 (hl b (List.mem_cons_self _ _))
    have hcmp := sortCompare_of_some hx hy
    rw [List.pairwise_cons] at hs
    unfold insertSorted
    by_cases h : sortCompare compareFn a b ≤ 0
    · rw [if_pos h, List.pairwise_cons]
      refine ⟨?_, List.pairwise_cons.2 hs⟩
      intro c hc
      rcases List.mem_cons.1 hc with rfl | hc
      · exact ⟨x, y, hx, hy, by omega⟩
      · obtain ⟨y', z, hy', hz, hle⟩ := hs.1 c hc
        have : y' = y := Option.some.inj (hy'.symm.trans hy)
        exact ⟨x, z, hx, hz, by omega⟩
    · rw [if_neg h, List.pairwise_cons]
      refine ⟨?_, ih (fun s hs' => hl s (List.mem_cons_of_mem _ hs')) hs.2⟩
      intro c hc
      rcases List.mem_cons.1 ((insertSorted_perm compareFn a l).mem_iff.1 hc) with rfl | hc
      · exact ⟨y, x, hy, hx, by omega⟩
      · exact hs.1 c hc

theorem sort_sorted (l : List Sample) (hl : ∀ s ∈ l, s.lastUpdatedAt.isSome = true) :
    (sort compareFn l).Pairwise NotAfter := by
  induction l with
  | nil => exact List.Pairwise.nil
  | cons a l ih =>
    have hl' : ∀ s ∈ l, s.lastUpdatedAt.isSome = true :=
      fun s hs => hl s (List.mem_cons_of_mem _ hs)
    exact insertSorted_sorted a (sort compareFn l) (hl a (List.mem_cons_self _ _))
      (fun s hs => hl' s ((sort_perm compareFn l).mem_iff.1 hs)) (ih hl')

theorem insertSorted_filter (t : Int) (a : Sample) (l : List Sample)
    (ha : a.lastUpdatedAt.isSome = true) (hl : ∀ s ∈ l, s.lastUpdatedAt.isSome = true) :
    (insertSorted compareFn a l).filter (fun s => decide (s.lastUpdatedAt = some t)) =
      (a :: l).filter (fun s => decide (s.lastUpdatedAt = some t)) := by
  induction l with
  | nil => rfl
  | cons b l ih =>
    obtain ⟨x, hx⟩ := Option.isSome_iff_exists.1 ha
    obtain ⟨y, hy⟩ := Option.isSome_iff_exists.1 (hl b (List.mem_cons_self _ _))
    have hcmp := sortCompare_of_some hx hy
    unfold insertSorted
    by_cases h : sortCompare compareFn a b ≤ 0
    · rw [if_pos h]
    · rw [if_neg h, List.filter_cons, ih (fun s hs' => hl s (List.mem_cons_of_mem _ hs'))]
      by_cases hxt : x = t
      · have hyt : ¬ y = t := by omega
        simp [List.filter_cons, hx, hy, hxt, hyt]
      · simp [List.filter_cons, hx, hy, hxt]

theorem sort_filter (t : Int) (l : List Sample) (hl : ∀ s ∈ l, s.lastUpdatedAt.isSome = true) :
    (sort compareFn l).filter (fun s => decide (s.lastUpdatedAt = some t)) =
      l.filter (fun s => decide (s.lastUpdatedAt = some t)) := by
  induction l with
  | nil => rfl
  | cons a l ih =>
    have hl' : ∀ s ∈ l, s.lastUpdatedAt.isSome = true :=
      fun s hs => hl s (List.mem_cons_of_mem _ hs)
    show (insertSorted compareFn a (sort compareFn l)).filter _ = _
    rw [insertSorted_filter t a (sort compareFn l) (hl a (List.mem_cons_self _ _))
      (fun s hs => hl' s ((sort_perm compareFn l).mem_iff.1 hs)),
      List.filter_cons, List.filter_cons, ih hl']

/-! ## Averaging -/

theorem foldl_addPrice (data : List Sample) (h : ∀ s ∈ data, s.price.isSome = true) (a : ℚ) :
    data.foldl addPrice (some a) = some (a + (data.filterMap (fun s => s.price)).sum) := by
  induction data generalizing a with
  | nil => simp
  | cons s data ih =>
    obtain ⟨p, hp⟩ := Option.isSome_iff_exists.1 (h s (List.mem_cons_self _ _))
    have hstep : addPrice (some a) s = some (a + p) := by simp [addPrice, hp]
    rw [List.foldl_cons, hstep, ih (fun s' hs' => h s' (List.mem_cons_of_mem _ hs'))]
    simp [List.filterMap_cons, hp, add_assoc]

theorem calculateAverage_mean (data : List Sample) (hne : data ≠ [])
    (h : ∀ s ∈ data, s.price.isSome = true) :
    calculateAverage data =
      some ((data.filterMap (fun s => s.price)).sum / (data.length : ℚ)) := by
  have hlen : ¬ data.length = 0 := by
    intro h0; exact hne (List.length_eq_zero.1 h0)
  unfold calculateAverage sumPrices
  rw [if_neg hlen, foldl_addPrice data h 0]
  simp

/-! ## Window controller: validation of the requested window -/

/-- C1: when the input text is the decimal numeral of an integer `n`,
`handleTimeChange` calls `onTimeFrameChange` exactly once, with `n`, if
`5 ≤ n ≤ 60`, and does not call it at all otherwise; so the active window
becomes `n` in the first case and is unchanged in the second. -/
theorem handleTimeChange_integer (n w : Int) :
    handleTimeChange (toString n) = (if 5 ≤ n ∧ n ≤ 60 then [n] else []) ∧
    setWindow w (toString n) = (if 5 ≤ n ∧ n ≤ 60 then n else w) := by
  unfold setWindow handleTimeChange
  rw [parseInt_numeral]
  by_cases h : 5 ≤ n ∧ n ≤ 60
  · have h' : n ≥ 5 ∧ n ≤ 60 := h
    simp [h, applyCalls]
  · have h' : ¬ (n ≥ 5 ∧ n ≤ 60) := h
    simp [h, applyCalls]

/-- C2, as stated, fails: the non-integer requests `7.5` and `10abc` are not
rejected; `onTimeFrameChange` is called with `7` and with `10`, and a window of
`15` becomes `7`. -/
theorem handleTimeChange_accepts_non_integer :
    handleTimeChange "7.5" = [7] ∧ handleTimeChange "10abc" = [10] ∧
    setWindow 15 "7.5" = 7 := by
  decide

/-- C2, amended: a request that is not an integer is rejected when its text has
no leading integer numeral (after leading white space and an optional sign it is
empty or goes on with a character that is not a digit): `onTimeFrameChange` is
not called and the window is retained.  When the text is the decimal numeral of
an integer `n` followed by text that does not begin with a digit,
`handleTimeChange` ignores that text and treats the request as `n`: it calls
`onTimeFrameChange` once with `n` if `5 ≤ n ≤ 60`, and otherwise makes no call
and the window is retained. -/
theorem handleTimeChange_non_integer (n w : Int) (rest text : String)
    (h : noLeadingDigit rest.toList = true)
    (ht : noLeadingNumeral text.toList = true) :
    (handleTimeChange text = [] ∧ setWindow w text = w) ∧
    handleTimeChange (toString n ++ rest) = (if 5 ≤ n ∧ n ≤ 60 then [n] else []) ∧
    setWindow w (toString n ++ rest) = (if 5 ≤ n ∧ n ≤ 60 then n else w) := by
  have hrej : handleTimeChange text = [] := by
    unfold handleTimeChange
    rw [parseInt_noLeadingNumeral text ht]
  refine ⟨⟨hrej, ?_⟩, ?_⟩
  · unfold setWindow
    rw [hrej]
    rfl
  · unfold setWindow handleTimeChange
    rw [parseInt_numeral_append n rest h]
    by_cases hr : 5 ≤ n ∧ n ≤ 60
    · have h' : n ≥ 5 ∧ n ≤ 60 := hr
      simp [hr, applyCalls]
    · have h' : ¬ (n ≥ 5 ∧ n ≤ 60) := hr
      simp [hr, applyCalls]

/-- Witness for C2 amended: the requests `abc` and `7.5` on a window of `15`;
the empty text, `.5` and a lone `-` have no leading numeral either. -/
theorem handleTimeChange_non_integer_witness :
    (noLeadingDigit ".5".toList = true ∧ noLeadingNumeral "abc".toList = true ∧
      noLeadingNumeral "".toList = true ∧ noLeadingNumeral ".5".toList = true ∧
      noLeadingNumeral " -".toList = true ∧ noLeadingNumeral "7.5".toList = false) ∧
    ((handleTimeChange "abc" = [] ∧ setWindow 15 "abc" = 15) ∧
      handleTimeChange (toString (7 : Int) ++ ".5") =
        (if 5 ≤ (7 : Int) ∧ (7 : Int) ≤ 60 then [7] else []) ∧
      setWindow 15 (toString (7 : Int) ++ ".5") =
        (if 5 ≤ (7 : Int) ∧ (7 : Int) ≤ 60 then 7 else 15)) :=
  ⟨by decide, handleTimeChange_non_integer 7 15 ".5" "abc" (by decide) (by decide)⟩

/-- C3: for every input text, every value `handleTimeChange` passes to
`onTimeFrameChange` is an integer in `[5, 60]`; and from a window in `[5, 60]`
the active window is in `[5, 60]` after any sequence of change events. -/
theorem window_invariant (text : String) (w : Int) (texts : List String)
    (hw : 5 ≤ w ∧ w ≤ 60) :
    (∀ v ∈ handleTimeChange text, 5 ≤ v ∧ v ≤ 60) ∧
    (5 ≤ setWindows w texts ∧ setWindows w texts ≤ 60) := by
  have hcalls : ∀ (t : String), ∀ v ∈ handleTimeChange t, 5 ≤ v ∧ v ≤ 60 := by
    intro t v hv
    unfold handleTimeChange at hv
    cases hp : parseInt t with
    | none => simp [hp] at hv
    | some x =>
      rw [hp] at hv
      by_cases hx : x ≥ 5 ∧ x ≤ 60
      · simp only [hx, and_self, if_true, List.mem_singleton] at hv
        rw [hv]; exact hx
      · simp [hx] at hv
  have hstep : ∀ (u : Int) (t : String), 5 ≤ u ∧ u ≤ 60 →
      5 ≤ setWindow u t ∧ setWindow u t ≤ 60 := by
    intro u t hu
    unfold setWindow handleTimeChange
    cases hp : parseInt t with
    | none => simp [applyCalls, hu]
    | some x =>
      by_cases hx : x ≥ 5 ∧ x ≤ 60
      · simp [hx, applyCalls]
      · simpa [hx, applyCalls] using hu
  refine ⟨hcalls text, ?_⟩
  unfold setWindows
  induction texts generalizing w with
  | nil => exact hw
  | cons t ts ih => exact ih (setWindow w t) (hstep w t hw)

/-- Witness for C3: the text `7.5`, and the events `3`, `20`, `7.5`, `abc` on a
window of `15`. -/
theorem window_invariant_witness :
    ((5 : Int) ≤ 15 ∧ (15 : Int) ≤ 60) ∧
    ((∀ v ∈ handleTimeChange "7.5", 5 ≤ v ∧ v ≤ 60) ∧
      (5 ≤ setWindows 15 ["3", "20", "7.5", "abc"] ∧
        setWindows 15 ["3", "20", "7.5", "abc"] ≤ 60)) :=
  ⟨by decide, window_invariant "7.5" 15 ["3", "20", "7.5", "abc"] (by decide)⟩

/-! ## Single-ticker chart: average, normalisation, sorting -/

/-- C4, as stated, fails for the empty sequence: after the effect has averaged
one sample of price `100`, running it on an empty array leaves `avgPrice` at
`100`, not `0`. -/
theorem avgPrice_kept_on_empty :
    (useEffect calculateAverage (.array [])
      (useEffect calculateAverage (.array [⟨some 100, some 0⟩]) initialState)).avgPrice
      = some 100 ∧
    (useEffect calculateAverage (.array [])
      (useEffect calculateAverage (.array [⟨some 100, some 0⟩]) initialState)).avgPrice
      ≠ some 0 := by
  norm_num [useEffect, normalize, calculateAverage, sumPrices, addPrice]

/-- C4, amended: for every non-empty sample sequence whose prices are all
present, the `avgPrice` set by the effect is the sum of the prices divided by
their count; for an empty sample sequence the effect does not set `avgPrice`,
which keeps its previous value, `0` on a freshly mounted component;
`calculateAverage` of the empty sequence is `0`. -/
theorem avgPrice_is_mean (stockData : StockData) (dataArray : List Sample) (st : ChartState)
    (hn : normalize stockData = some dataArray)
    (hp : ∀ s ∈ dataArray, s.price.isSome = true) :
    (dataArray ≠ [] → (useEffect calculateAverage stockData st).avgPrice =
        some ((dataArray.filterMap (fun s => s.price)).sum / (dataArray.length : ℚ))) ∧
    (dataArray = [] → (useEffect calculateAverage stockData st).avgPrice = st.avgPrice) ∧
    initialState.avgPrice = some 0 ∧ calculateAverage [] = some 0 := by
  refine ⟨?_, ?_, rfl, rfl⟩
  · intro hne
    have hlen : ¬ dataArray.length = 0 := fun h0 => hne (List.length_eq_zero.1 h0)
    unfold useEffect
    rw [hn]
    simp only [hlen, if_false]
    exact calculateAverage_mean dataArray hne hp
  · intro he
    unfold useEffect
    rw [hn, he]
    rfl

/-- Witness for C4 amended: the prices `100`, `110`, `90` average to `100`. -/
theorem avgPrice_is_mean_witness :
    (normalize (.array [⟨some 100, some 0⟩, ⟨some 110, some 60000⟩, ⟨some 90, some 120000⟩])
        = some [⟨some 100, some 0⟩, ⟨some 110, some 60000⟩, ⟨some 90, some 120000⟩] ∧
      ∀ s ∈ [(⟨some 100, some 0⟩ : Sample), ⟨some 110, some 60000⟩, ⟨some 90, some 120000⟩],
        s.price.isSome = true) ∧
    (useEffect calculateAverage
      (.array [⟨some 100, some 0⟩, ⟨some 110, some 60000⟩, ⟨some 90, some 120000⟩])
      initialState).avgPrice = some 100 := by
  refine ⟨⟨rfl, by decide⟩, ?_⟩
  have h := (avgPrice_is_mean
    (.array [⟨some 100, some 0⟩, ⟨some 110, some 60000⟩, ⟨some 90, some 120000⟩])
    [⟨some 100, some 0⟩, ⟨some 110, some 60000⟩, ⟨some 90, some 120000⟩]
    initialState rfl (by decide)).1 (by simp)
  rw [h]
  norm_num [List.filterMap_cons]

/-- C5: the normalisation yields a sequence for every input that is not falsy:
an array yields that same array, a non-array object with a `stock` record yields
the one-element sequence of that record, and any other object yields the empty
sequence. -/
theorem normalize_shapes (stockData : StockData) (items : List Sample) (stock : Sample) :
    normalize (.array items) = some items ∧
    normalize (.object (some stock)) = some [stock] ∧
    normalize (.object none) = some [] ∧
    (normalize stockData = none ↔ stockData = .falsy) := by
  refine ⟨rfl, rfl, rfl, ?_⟩
  cases stockData with
  | falsy => simp [normalize]
  | array xs => simp [normalize]
  | object st => cases st <;> simp [normalize]

/-- C6: the normalisation is idempotent: normalising the sequence that
normalising `x` produced yields that same sequence. -/
theorem normalize_idempotent (x : StockData) :
    (normalize x).bind (fun dataArray => normalize (.array dataArray)) = normalize x := by
  cases x with
  | falsy => rfl
  | array xs => rfl
  | object st => cases st <;> rfl

/-- C7: when every timestamp parses, the sequence `formatChartData` charts is
the stable ascending sort of the input by `lastUpdatedAt`: a permutation of the
input of the same length, with non-decreasing timestamps, in which the samples
of any one timestamp keep their arrival order; the charted prices and labels are
read off it in order. -/
theorem formatChartData_sorted_stable (data : List Sample) (average : Number)
    (h : ∀ s ∈ data, s.lastUpdatedAt.isSome = true) :
    (sortedData data).Perm data ∧
    (sortedData data).length = data.length ∧
    (sortedData data).Pairwise NotAfter ∧
    (∀ t : Int, (sortedData data).filter (fun s => decide (s.lastUpdatedAt = some t)) =
      data.filter (fun s => decide (s.lastUpdatedAt = some t))) ∧
    (formatChartData data average).prices = (sortedData data).map (fun s => s.price) ∧
    (formatChartData data average).labels =
      (sortedData data).map (fun s => s.lastUpdatedAt) :=
  ⟨sort_perm compareFn data, (sort_perm compareFn data).length_eq, sort_sorted data h,
    fun t => sort_filter t data h, rfl, rfl⟩

/-- Witness for C7: four samples, two at time `5` and two at time `3`. -/
theorem formatChartData_sorted_stable_witness :
    (∀ s ∈ [(⟨some 1, some 5⟩ : Sample), ⟨some 2, some 3⟩, ⟨some 3, some 5⟩, ⟨some 4, some 3⟩],
      s.lastUpdatedAt.isSome = true) ∧
    sortedData [⟨some 1, some 5⟩, ⟨some 2, some 3⟩, ⟨some 3, some 5⟩, ⟨some 4, some 3⟩] =
      [⟨some 2, some 3⟩, ⟨some 4, some 3⟩, ⟨some 1, some 5⟩, ⟨some 3, some 5⟩] ∧
    (sortedData [⟨some 1, some 5⟩, ⟨some 2, some 3⟩, ⟨some 3, some 5⟩,
      ⟨some 4, some 3⟩]).Pairwise NotAfter :=
  ⟨by decide, by decide,
    (formatChartData_sorted_stable
      [⟨some 1, some 5⟩, ⟨some 2, some 3⟩, ⟨some 3, some 5⟩, ⟨some 4, some 3⟩] (some 0)
      (by decide)).2.2.1⟩

/-- C8, as stated, fails: a record without price in the input array is in the
normalised sequence, and its missing price is charted. -/
theorem normalize_keeps_malformed :
    normalize (.array [⟨none, some 0⟩]) = some [⟨none, some 0⟩] ∧
    wellFormed ⟨none, some 0⟩ = false ∧
    (formatChartData [⟨none, some 0⟩] (some 0)).prices = [none] := by
  decide

/-- C8, amended: no record is dropped at normalisation: for every input array
the normalised sequence is the input array itself, that sequence is what is
averaged and charted, and the charted sequence has every record of the input,
well formed or not. -/
theorem normalize_array_keeps_all (calcAvg : List Sample → Number) (items : List Sample)
    (st : ChartState) :
    normalize (.array items) = some items ∧
    useEffect calcAvg (.array items) st =
      (if items.length = 0 then st
       else { avgPrice := calcAvg items,
              chartData := some (formatChartData items (calcAvg items)) }) ∧
    (∀ r, r ∈ sortedData items ↔ r ∈ items) :=
  ⟨rfl, rfl, fun _ => (sort_perm compareFn items).mem_iff⟩

/-- C9: the render path throws on a single data point whose price is missing:
`stockData.stock.price.toFixed(2)` is called on `undefined`. -/
theorem StockChart_throws_on_missing_price (lastUpdatedAt : Option Int) (st : ChartState) :
    StockChart (.object (some ⟨none, lastUpdatedAt⟩)) st =
      .error "TypeError: Cannot read properties of undefined (reading toFixed)" :=
  rfl

/-- C10, as stated, fails: on an empty array, and on an object with no `stock`
field, the effect started from two different prior states ends in two different
states. -/
theorem useEffect_keeps_prior_state :
    useEffect (fun _ => some 0) (.array []) initialState ≠
      useEffect (fun _ => some 0) (.array []) ⟨none, some 100⟩ ∧
    useEffect (fun _ => some 0) (.object none) initialState ≠
      useEffect (fun _ => some 0) (.object none) ⟨none, some 100⟩ := by
  decide

/-- C10, amended: when the normalised sample sequence is non-empty, the
`avgPrice` and `chartData` after the effect are determined by `stockData` alone,
the same from any two prior states; on a falsy `stockData`, an empty array or an
object with no `stock` field the effect leaves the prior state as it is. -/
theorem useEffect_function_of_samples (calcAvg : List Sample → Number)
    (stockData : StockData) (dataArray : List Sample) (s1 s2 : ChartState)
    (hn : normalize stockData = some dataArray) (hne : dataArray ≠ []) :
    useEffect calcAvg stockData s1 = useEffect calcAvg stockData s2 ∧
    useEffect calcAvg stockData s1 =
      { avgPrice := calcAvg dataArray,
        chartData := some (formatChartData dataArray (calcAvg dataArray)) } ∧
    useEffect calcAvg .falsy s1 = s1 ∧
    useEffect calcAvg (.array []) s1 = s1 ∧
    useEffect calcAvg (.object none) s1 = s1 := by
  have hlen : ¬ dataArray.length = 0 := fun h0 => hne (List.length_eq_zero.1 h0)
  have hrun : ∀ s : ChartState, useEffect calcAvg stockData s =
      { avgPrice := calcAvg dataArray,
        chartData := some (formatChartData dataArray (calcAvg dataArray)) } := by
    intro s
    unfold useEffect
    rw [hn]
    simp only [hlen, if_false]
  exact ⟨(hrun s1).trans (hrun s2).symm, hrun s1, rfl, rfl, rfl⟩

/-- Witness for C10 amended: one sample, from the initial state and from a
state that holds an average of `100`, with an averaging function that returns
`7`. -/
theorem useEffect_function_of_samples_witness :
    (normalize (.array [⟨some 7, some 0⟩]) = some [⟨some 7, some 0⟩] ∧
      [(⟨some 7, some 0⟩ : Sample)] ≠ []) ∧
    useEffect (fun _ => some 7) (.array [⟨some 7, some 0⟩]) initialState =
      useEffect (fun _ => some 7) (.array [⟨some 7, some 0⟩]) ⟨none, some 100⟩ :=
  ⟨⟨rfl, by decide⟩,
    (useEffect_function_of_samples (fun _ => some 7) (.array [⟨some 7, some 0⟩])
      [⟨some 7, some 0⟩] initialState ⟨none, some 100⟩ rfl (by decide)).1⟩

end StockAggregator
